import Mathlib

/-!
Verification of the elpais-scraper repository.

The repository contains two parallel implementations of the pipeline:
a flat layout (analyzer.py, translator.py, scraper.py, browserstack_runner.py)
and a nested package (src/analyzer.py, src/translator.py, src/scraper.py).
Definitions below are shallow embeddings of the corresponding Python
functions; namespaces mirror the module layout (`analyzer` for analyzer.py,
`src.analyzer` for src/analyzer.py, and so on).

Python strings are modelled as Lean `String`s; `str.lower()` / `str.upper()`
are `Char.toLower` / `Char.toUpper` mapped over the characters (exact for
the ASCII range the code manipulates).
-/

set_option autoImplicit false

namespace ElPais

/-- Embedding of Python `s.lower()` (exact on ASCII). -/
def pyLower (l : List Char) : List Char := l.map Char.toLower

/-- Embedding of Python `s.upper()` (exact on ASCII). -/
def pyUpper (l : List Char) : List Char := l.map Char.toUpper

/-- ASCII alphabetic test, the character class `[a-zA-Z]` of the
tokenizing regex. -/
def isAsciiAlpha (c : Char) : Bool :=
  ('a' ≤ c && c ≤ 'z') || ('A' ≤ c && c ≤ 'Z')

/-- Maximal runs of `[a-zA-Z]` characters, in order.  `re.split` on
`[^a-zA-Z]+` returns these runs interleaved with empty strings at the
boundaries; both analyzers immediately drop the empty tokens (`if t`),
so the runs are exactly the surviving raw tokens. -/
def alphaRunsAux : List Char → List Char → List String
  | acc, [] => if acc.isEmpty then [] else [String.mk acc.reverse]
  | acc, c :: cs =>
    if isAsciiAlpha c then alphaRunsAux (c :: acc) cs
    else (if acc.isEmpty then [] else [String.mk acc.reverse]) ++ alphaRunsAux [] cs

/-- Raw word tokens of a text: lower-case, then split on runs of
non-alphabetic characters (empty tokens dropped). -/
def alphaRuns (s : String) : List String := alphaRunsAux [] (pyLower s.data)

/-- One `Counter.update` step for a single token: increment the first
entry with this key, or append a fresh entry with count 1.  This mirrors
Python dict/Counter semantics (existing keys keep their position, new
keys are appended). -/
def updateCount : List (String × Nat) → String → List (String × Nat)
  | [], w => [(w, 1)]
  | (k, v) :: rest, w =>
    if k = w then (k, v + 1) :: rest else (k, v) :: updateCount rest w

/-- `counter.update(tokens)`: fold `updateCount` over a token list. -/
def counterUpdate (c : List (String × Nat)) (ws : List String) : List (String × Nat) :=
  ws.foldl updateCount c

end ElPais

namespace ElPais.analyzer

/-- Stop-word set of analyzer.py (module constant `STOP_WORDS`). -/
def STOP_WORDS : List String :=
  ["a", "an", "the", "and", "or", "but", "in", "on", "at", "to", "for",
   "of", "with", "by", "from", "is", "are", "was", "were", "be", "been",
   "being", "have", "has", "had", "do", "does", "did", "will", "would",
   "could", "should", "may", "might", "shall", "it", "its", "this", "that",
   "these", "those", "i", "you", "he", "she", "we", "they", "my", "your",
   "his", "her", "our", "their", "as", "not", "no", "so", "if", "than",
   "then", "about", "into", "up", "out", "more", "also", "just", "can",
   "which", "who", "what", "how", "when", "where", "why"]

def MIN_WORD_LENGTH : Nat := 3

/-- Embedding of `analyzer.tokenize`: lower-case, split on non-alphabetic
runs, keep non-empty tokens of length at least `MIN_WORD_LENGTH` that are
not stop words. -/
def tokenize (text : String) : List String :=
  (alphaRuns text).filter fun t =>
    !t.isEmpty && decide (MIN_WORD_LENGTH ≤ t.length) && !(STOP_WORDS.contains t)

/-- Embedding of `analyzer.count_words`: a `Counter` updated with the
tokens of each header in order, read off as an association list. -/
def count_words (headers : List String) : List (String × Nat) :=
  headers.foldl (fun c h => counterUpdate c (tokenize h)) []

/-- Embedding of `analyzer.find_repeated_words`: keep the entries of
`count_words` whose count is strictly greater than `threshold`
(`threshold` is a Python `int`, so it is modelled as `Int`). -/
def find_repeated_words (headers : List String) (threshold : Int) : List (String × Nat) :=
  (count_words headers).filter fun p => decide (threshold < (p.2 : Int))

end ElPais.analyzer

namespace ElPais.src.analyzer

/-- Stop-word set of src/analyzer.py.  Note: this set is smaller than the
one in analyzer.py (for example "should", "might", "being", "these",
"those" and the personal pronouns are missing here). -/
def STOP_WORDS : List String :=
  ["a", "an", "the", "and", "or", "but", "in", "on", "at", "to", "for",
   "of", "with", "by", "from", "is", "are", "was", "were", "it", "its",
   "this", "that", "not", "no", "as", "if", "so", "be", "been", "have",
   "has", "had", "do", "does", "did", "will", "would", "could", "can",
   "may", "who", "what", "how", "when", "where", "which", "than", "also"]

/-- Token filter inlined in `WordAnalyzer.analyze`: non-empty, length at
least 3, not a stop word. -/
def tokenize (header : String) : List String :=
  (alphaRuns header).filter fun t =>
    !t.isEmpty && decide (3 ≤ t.length) && !(STOP_WORDS.contains t)

namespace WordAnalyzer

/-- Embedding of `WordAnalyzer.analyze` (src/analyzer.py): accumulate a
`Counter` over all headers, then keep counts strictly above the
threshold (`self.threshold`, a Python `int`). -/
def analyze (threshold : Int) (headers : List String) : List (String × Nat) :=
  (headers.foldl (fun c h => ElPais.counterUpdate c (tokenize h)) []).filter
    fun p => decide (threshold < (p.2 : Int))

end WordAnalyzer

end ElPais.src.analyzer

namespace ElPais

/-- All surviving tokens of a batch of headers under a given tokenizer,
in header order: the multiset the analyzers count over. -/
def tokensOf (tok : String → List String) (headers : List String) : List String :=
  (headers.map tok).flatten

/-- The Counter built over all headers with tokenizer `tok`; both
analyzers are instances of this with their respective token filters. -/
def counterOf (tok : String → List String) (headers : List String) : List (String × Nat) :=
  headers.foldl (fun c h => counterUpdate c (tok h)) []

/-- Count recorded for `w` in an association list (0 when absent),
mirroring `Counter[w]`. -/
def getCount (c : List (String × Nat)) (w : String) : Nat :=
  match c.find? (fun p => p.1 == w) with
  | some p => p.2
  | none => 0

theorem getCount_nil (w : String) : getCount [] w = 0 := rfl

theorem getCount_cons (k : String) (v : Nat) (c : List (String × Nat)) (w : String) :
    getCount ((k, v) :: c) w = if k = w then v else getCount c w := by
  by_cases h : k = w <;> simp [getCount, List.find?_cons, h]

theorem getCount_updateCount (c : List (String × Nat)) (w x : String) :
    getCount (updateCount c w) x = getCount c x + (if x = w then 1 else 0) := by
  induction c with
  | nil =>
    rcases eq_or_ne x w with h | h
    · subst h; simp [updateCount, getCount_cons, getCount_nil]
    · simp [updateCount, getCount_cons, getCount_nil, h, Ne.symm h]
  | cons p c ih =>
    obtain ⟨k, v⟩ := p
    rcases eq_or_ne k w with hkw | hkw
    · subst hkw
      rcases eq_or_ne k x with hkx | hkx
      · subst hkx; simp [updateCount, getCount_cons]
      · simp [updateCount, getCount_cons, hkx, Ne.symm hkx]
    · rcases eq_or_ne k x with hkx | hkx
      · subst hkx
        simp [updateCount, hkw, getCount_cons, fun h : k = w => hkw h]
      · simp [updateCount, hkw, getCount_cons, hkx, ih]

theorem getCount_counterUpdate (ws : List String) :
    ∀ (c : List (String × Nat)) (x : String),
      getCount (counterUpdate c ws) x = getCount c x + ws.count x := by
  induction ws with
  | nil => intro c x; simp [counterUpdate]
  | cons w ws ih =>
    intro c x
    have hstep : counterUpdate c (w :: ws) = counterUpdate (updateCount c w) ws := rfl
    rw [hstep, ih, getCount_updateCount, List.count_cons]
    rcases eq_or_ne x w with h | h
    · subst h; simp; omega
    · simp [h, Ne.symm h]

theorem getCount_counterOf (tok : String → List String) (headers : List String) :
    ∀ (acc : List (String × Nat)) (x : String),
      getCount (headers.foldl (fun c h => counterUpdate c (tok h)) acc) x =
        getCount acc x + (tokensOf tok headers).count x := by
  induction headers with
  | nil => intro acc x; simp [tokensOf]
  | cons h hs ih =>
    intro acc x
    have : (h :: hs).foldl (fun c h => counterUpdate c (tok h)) acc =
        hs.foldl (fun c h => counterUpdate c (tok h)) (counterUpdate acc (tok h)) := rfl
    rw [this, ih, getCount_counterUpdate]
    simp [tokensOf, List.count_append]
    omega

theorem keys_updateCount (c : List (String × Nat)) (w : String) :
    (updateCount c w).map Prod.fst =
      if w ∈ c.map Prod.fst then c.map Prod.fst else c.map Prod.fst ++ [w] := by
  induction c with
  | nil => simp [updateCount]
  | cons p c ih =>
    obtain ⟨k, v⟩ := p
    by_cases hkw : k = w
    · simp [updateCount, hkw]
    · by_cases hmem : w ∈ c.map Prod.fst <;>
        simp [updateCount, hkw, hmem, ih, Ne.symm hkw]

theorem nodupKeys_updateCount (c : List (String × Nat)) (w : String)
    (h : (c.map Prod.fst).Nodup) : ((updateCount c w).map Prod.fst).Nodup := by
  rw [keys_updateCount]
  by_cases hmem : w ∈ c.map Prod.fst
  · simpa [hmem] using h
  · have hperm : (c.map Prod.fst ++ [w]).Perm (w :: c.map Prod.fst) :=
      List.perm_append_singleton w (c.map Prod.fst)
    simp only [hmem, if_false]
    exact hperm.nodup_iff.mpr (List.nodup_cons.mpr ⟨hmem, h⟩)

theorem pos_updateCount (c : List (String × Nat)) (w : String)
    (h : ∀ p ∈ c, 1 ≤ p.2) : ∀ p ∈ updateCount c w, 1 ≤ p.2 := by
  induction c with
  | nil =>
    intro p hp
    simp [updateCount] at hp
    simp [hp]
  | cons q c ih =>
    obtain ⟨k, v⟩ := q
    intro p hp
    by_cases hkw : k = w
    · simp [updateCount, hkw] at hp
      rcases hp with hp | hp
      · simp [hp]
      · exact h p (List.mem_cons_of_mem _ hp)
    · simp only [updateCount, hkw, if_false] at hp
      rcases List.mem_cons.mp hp with hp | hp
      · exact hp ▸ h (k, v) (List.mem_cons_self _ _)
      · exact ih (fun q hq => h q (List.mem_cons_of_mem _ hq)) p hp

theorem invariant_counterUpdate (ws : List String) :
    ∀ (c : List (String × Nat)),
      (c.map Prod.fst).Nodup → (∀ p ∈ c, 1 ≤ p.2) →
      ((counterUpdate c ws).map Prod.fst).Nodup ∧ ∀ p ∈ counterUpdate c ws, 1 ≤ p.2 := by
  induction ws with
  | nil => intro c h1 h2; exact ⟨h1, h2⟩
  | cons w ws ih =>
    intro c h1 h2
    exact ih (updateCount c w) (nodupKeys_updateCount c w h1) (pos_updateCount c w h2)

theorem invariant_counterOf (tok : String → List String) (headers : List String) :
    ∀ (acc : List (String × Nat)),
      (acc.map Prod.fst).Nodup → (∀ p ∈ acc, 1 ≤ p.2) →
      (((headers.foldl (fun c h => counterUpdate c (tok h)) acc).map Prod.fst).Nodup ∧
        ∀ p ∈ headers.foldl (fun c h => counterUpdate c (tok h)) acc, 1 ≤ p.2) := by
  induction headers with
  | nil => intro acc h1 h2; exact ⟨h1, h2⟩
  | cons h hs ih =>
    intro acc h1 h2
    obtain ⟨h1', h2'⟩ := invariant_counterUpdate (tok h) acc h1 h2
    exact ih (counterUpdate acc (tok h)) h1' h2'

theorem mem_iff_getCount (w : String) (n : Nat) :
    ∀ (c : List (String × Nat)), (c.map Prod.fst).Nodup → (∀ p ∈ c, 1 ≤ p.2) →
      ((w, n) ∈ c ↔ (getCount c w = n ∧ 1 ≤ n)) := by
  intro c
  induction c with
  | nil =>
    intro _ _
    simp [getCount_nil]
    omega
  | cons p c ih =>
    intro hnd hpos
    obtain ⟨k, v⟩ := p
    simp only [List.map_cons, List.nodup_cons] at hnd
    obtain ⟨hk, hnd'⟩ := hnd
    have hpos' : ∀ q ∈ c, 1 ≤ q.2 := fun q hq => hpos q (List.mem_cons_of_mem _ hq)
    have hv : 1 ≤ v := hpos (k, v) (List.mem_cons_self _ _)
    rw [getCount_cons]
    rcases eq_or_ne k w with rfl | hkw
    · have hwc : ∀ m, (k, m) ∉ c := fun m hmem => hk (List.mem_map_of_mem Prod.fst hmem)
      simp only [if_pos rfl]
      constructor
      · intro hmem
        rcases List.mem_cons.mp hmem with heq | hmem'
        · injection heq with h1 h2
          subst h2
          exact ⟨rfl, hv⟩
        · exact absurd hmem' (hwc n)
      · rintro ⟨rfl, -⟩
        exact List.mem_cons_self _ _
    · simp only [if_neg hkw]
      constructor
      · intro hmem
        rcases List.mem_cons.mp hmem with heq | hmem'
        · injection heq with h1 h2
          exact absurd h1.symm hkw
        · exact (ih hnd' hpos').mp hmem'
      · intro hc
        exact List.mem_cons_of_mem _ ((ih hnd' hpos').mpr hc)

theorem mem_counterOf_iff (tok : String → List String) (headers : List String)
    (w : String) (n : Nat) :
    (w, n) ∈ counterOf tok headers ↔
      ((tokensOf tok headers).count w = n ∧ 1 ≤ n) := by
  obtain ⟨h1, h2⟩ := invariant_counterOf tok headers [] (by simp) (by simp)
  unfold counterOf
  rw [mem_iff_getCount w n _ h1 h2, getCount_counterOf tok headers [] w, getCount_nil,
    Nat.zero_add]

/-- Membership characterization of a thresholded frequency report: the
report holds `(w, n)` exactly when `w` is a surviving token whose total
count across all headers is `n`, with `n` strictly above the threshold. -/
theorem mem_report_iff (tok : String → List String) (headers : List String)
    (T : Int) (w : String) (n : Nat) :
    (w, n) ∈ (counterOf tok headers).filter (fun p => decide (T < (p.2 : Int))) ↔
      (0 < (tokensOf tok headers).count w ∧
        n = (tokensOf tok headers).count w ∧ T < (n : Int)) := by
  rw [List.mem_filter, mem_counterOf_iff]
  constructor
  · rintro ⟨⟨hcount, hpos⟩, hT⟩
    exact ⟨hcount ▸ hpos, hcount.symm, by simpa using hT⟩
  · rintro ⟨hpos, rfl, hT⟩
    exact ⟨⟨rfl, hpos⟩, by simpa using hT⟩

theorem find_repeated_words_eq (headers : List String) (T : Int) :
    analyzer.find_repeated_words headers T =
      (counterOf analyzer.tokenize headers).filter (fun p => decide (T < (p.2 : Int))) := rfl

theorem analyze_eq (T : Int) (headers : List String) :
    src.analyzer.WordAnalyzer.analyze T headers =
      (counterOf src.analyzer.tokenize headers).filter (fun p => decide (T < (p.2 : Int))) := rfl

theorem count_filter_eq (p : String → Bool) (a : String) (l : List String) :
    (l.filter p).count a = if p a = true then l.count a else 0 := by
  induction l with
  | nil => simp
  | cons b l ih =>
    by_cases hpb : p b = true
    · rcases eq_or_ne b a with rfl | hba
      · simp [List.filter_cons, hpb, List.count_cons, ih]
      · simp [List.filter_cons, hpb, List.count_cons, ih, hba]
    · rcases eq_or_ne b a with rfl | hba
      · simp [List.filter_cons, hpb, List.count_cons, ih]
      · simp [List.filter_cons, hpb, List.count_cons, ih, hba]

theorem tokensOf_count_congr (tok1 tok2 : String → List String) (w : String)
    (h : ∀ s, (tok1 s).count w = (tok2 s).count w) (headers : List String) :
    (tokensOf tok1 headers).count w = (tokensOf tok2 headers).count w := by
  simp only [tokensOf, List.count_flatten, List.map_map, Function.comp]
  congr 1
  exact List.map_congr_left (fun s _ => h s)

end ElPais

namespace ElPais

/-- Claim C1: for every list of input texts and every integer threshold
`T`, the report of each analyzer contains `(w, n)` exactly when `w` is a
token of the tokenization pipeline (lower-case, split on runs of
non-alphabetic characters, drop tokens shorter than 3 characters or in
the stop-word set) occurring in the combined texts, `n` is its total
count across all texts, and `n` is strictly greater than `T`. -/
theorem claim_C1_report_contains_exactly (headers : List String) (T : Int)
    (w : String) (n : Nat) :
    ((w, n) ∈ analyzer.find_repeated_words headers T ↔
      (0 < (tokensOf analyzer.tokenize headers).count w ∧
        n = (tokensOf analyzer.tokenize headers).count w ∧ T < (n : Int))) ∧
    ((w, n) ∈ src.analyzer.WordAnalyzer.analyze T headers ↔
      (0 < (tokensOf src.analyzer.tokenize headers).count w ∧
        n = (tokensOf src.analyzer.tokenize headers).count w ∧ T < (n : Int))) := by
  constructor
  · rw [find_repeated_words_eq]
    exact mem_report_iff analyzer.tokenize headers T w n
  · rw [analyze_eq]
    exact mem_report_iff src.analyzer.tokenize headers T w n

/-- Claim C8: permuting the input texts leaves both analyzers' reports
unchanged as word-to-count mappings. -/
theorem claim_C8_permutation_invariant (h1 h2 : List String) (T : Int)
    (hp : h1.Perm h2) (w : String) (n : Nat) :
    ((w, n) ∈ analyzer.find_repeated_words h1 T ↔
      (w, n) ∈ analyzer.find_repeated_words h2 T) ∧
    ((w, n) ∈ src.analyzer.WordAnalyzer.analyze T h1 ↔
      (w, n) ∈ src.analyzer.WordAnalyzer.analyze T h2) := by
  have key : ∀ tok : String → List String,
      (tokensOf tok h1).count w = (tokensOf tok h2).count w := by
    intro tok
    exact ((hp.map tok).flatten).count_eq w
  constructor
  · rw [find_repeated_words_eq, find_repeated_words_eq, mem_report_iff, mem_report_iff,
      key analyzer.tokenize]
  · rw [analyze_eq, analyze_eq, mem_report_iff, mem_report_iff,
      key src.analyzer.tokenize]

/-- Witness for claim C8 at a concrete permutation: swapping two headers
does not change membership of a report entry. -/
theorem claim_C8_witness :
    (["Crisis Europa", "Crisis"].Perm ["Crisis", "Crisis Europa"]) ∧
    (("crisis", 2) ∈ analyzer.find_repeated_words ["Crisis Europa", "Crisis"] 1 ↔
      ("crisis", 2) ∈ analyzer.find_repeated_words ["Crisis", "Crisis Europa"] 1) :=
  ⟨by decide,
    (claim_C8_permutation_invariant ["Crisis Europa", "Crisis"]
      ["Crisis", "Crisis Europa"] 1 (by decide) "crisis" 2).1⟩

/-- Counterexample to claim C10: the two stop-word sets differ
("should" is a stop word only in analyzer.py), so on the headers
["should should should"] with threshold 2 the flat analyzer reports
nothing while the nested analyzer reports the word. -/
theorem claim_C10_counterexample :
    analyzer.find_repeated_words ["should should should"] 2 = [] ∧
    src.analyzer.WordAnalyzer.analyze 2 ["should should should"] = [("should", 3)] :=
  ⟨by decide, by decide⟩

/-- Claim C10 as amended: the two implementations agree on every word on
which the two stop-word sets agree (that is, outside the symmetric
difference of the stop-word sets); they differ only through the
stop-word sets. -/
theorem claim_C10_amended (headers : List String) (T : Int) (w : String) (n : Nat)
    (hw : analyzer.STOP_WORDS.contains w = src.analyzer.STOP_WORDS.contains w) :
    ((w, n) ∈ analyzer.find_repeated_words headers T ↔
      (w, n) ∈ src.analyzer.WordAnalyzer.analyze T headers) := by
  have hcount : ∀ s, (analyzer.tokenize s).count w = (src.analyzer.tokenize s).count w := by
    intro s
    unfold analyzer.tokenize src.analyzer.tokenize
    rw [count_filter_eq, count_filter_eq, hw]
    rfl
  have htok : (tokensOf analyzer.tokenize headers).count w =
      (tokensOf src.analyzer.tokenize headers).count w :=
    tokensOf_count_congr _ _ w hcount headers
  rw [find_repeated_words_eq, analyze_eq, mem_report_iff, mem_report_iff, htok]

/-- Witness for claim C10 amended: "crisis" is in neither stop-word set,
and the two reports agree on it. -/
theorem claim_C10_amended_witness :
    (analyzer.STOP_WORDS.contains "crisis" = src.analyzer.STOP_WORDS.contains "crisis") ∧
    (("crisis", 3) ∈ analyzer.find_repeated_words ["Crisis Europa", "Crisis", "crisis"] 2 ↔
      ("crisis", 3) ∈ src.analyzer.WordAnalyzer.analyze 2 ["Crisis Europa", "Crisis", "crisis"]) :=
  ⟨by decide,
    claim_C10_amended ["Crisis Europa", "Crisis", "crisis"] 2 "crisis" 3 (by decide)⟩

end ElPais

namespace ElPais

/-- Containment of one character sequence in another, the embedding of
Python `pat in s` on strings. -/
def containsSeq (pat : List Char) : List Char → Bool
  | [] => pat.isEmpty
  | c :: rest => pat.isPrefixOf (c :: rest) || containsSeq pat rest

/-- Shared retry loop of the two translators (`for attempt in
range(retries)` in translator.py, `for attempt in range(1, retries + 1)`
in src/translator.py — both make up to `retries` provider calls).  The
provider is abstracted as a function from the attempt number (1-based)
to `none` (a raised and caught request exception, or an HTTP error
status) or `some t` (the parsed `translatedText`).  The result pairs the
returned text with the number of provider calls that were made. -/
def attemptLoop (accept : String → Bool) (provider : Nat → Option String)
    (fallback : String) (made : Nat) : Nat → String × Nat
  | 0 => (fallback, made)
  | remaining + 1 =>
    match provider (made + 1) with
    | some t =>
      if accept t then (t, made + 1)
      else attemptLoop accept provider fallback (made + 1) remaining
    | none => attemptLoop accept provider fallback (made + 1) remaining

end ElPais

namespace ElPais.translator

/-- Acceptance test of `_mymemory_translate` (translator.py line 44): a
response is accepted when it is non-empty (Python truthiness) and its
upper-casing is not EXACTLY the string "INVALID LANGUAGE PAIR
SPECIFIED" — an equality test, not a substring test. -/
def accepted (translated : String) : Bool :=
  decide (translated ≠ "") &&
    decide (String.mk (pyUpper translated.data) ≠ "INVALID LANGUAGE PAIR SPECIFIED")

/-- Embedding of `_mymemory_translate` (translator.py): up to `retries`
provider attempts, returning the first accepted response, else the
original text.  There is no empty-input short-circuit in this function. -/
def _mymemory_translate (provider : Nat → Option String) (text : String)
    (retries : Nat := 3) : String × Nat :=
  attemptLoop accepted provider text 0 retries

end ElPais.translator

namespace ElPais.src.translator

/-- Acceptance test of `ArticleTranslator.translate`
(src/translator.py line 45): non-empty and `"INVALID" not in
translated.upper()` — a substring test against "INVALID" alone. -/
def accepted (translated : String) : Bool :=
  decide (translated ≠ "") && !(containsSeq "INVALID".data (pyUpper translated.data))

namespace ArticleTranslator

/-- Embedding of `ArticleTranslator.translate` (src/translator.py): an
empty input is returned unchanged without any provider call; otherwise
up to `retries` attempts are made and the original text is returned if
none is accepted. -/
def translate (provider : Nat → Option String) (text : String)
    (retries : Nat := 3) : String × Nat :=
  if text = "" then (text, 0)
  else attemptLoop ElPais.src.translator.accepted provider text 0 retries

end ArticleTranslator

end ElPais.src.translator

namespace ElPais

theorem attemptLoop_rejected (accept : String → Bool) (provider : Nat → Option String)
    (fallback : String) :
    ∀ (remaining made : Nat),
      (∀ i, made < i → i ≤ made + remaining →
        ∀ s, provider i = some s → accept s = false) →
      attemptLoop accept provider fallback made remaining = (fallback, made + remaining) := by
  intro remaining
  induction remaining with
  | zero => intro made _; rfl
  | succ k ih =>
    intro made h
    have hnext : ∀ i, made + 1 < i → i ≤ made + 1 + k →
        ∀ s, provider i = some s → accept s = false := by
      intro i h1 h2 s hs
      exact h i (by omega) (by omega) s hs
    show (match provider (made + 1) with
      | some t =>
        if accept t then (t, made + 1)
        else attemptLoop accept provider fallback (made + 1) k
      | none => attemptLoop accept provider fallback (made + 1) k) = (fallback, made + (k + 1))
    cases hp : provider (made + 1) with
    | none =>
      dsimp only
      rw [ih (made + 1) hnext]
      congr 1
      omega
    | some t =>
      dsimp only
      rw [h (made + 1) (by omega) (by omega) t hp]
      simp only [Bool.false_eq_true, if_false]
      rw [ih (made + 1) hnext]
      congr 1
      omega

theorem attemptLoop_const (accept : String → Bool) (s fallback : String) :
    ∀ (r made : Nat), 1 ≤ r →
      attemptLoop accept (fun _ => some s) fallback made r =
        (if accept s then (s, made + 1) else (fallback, made + r)) := by
  intro r made hr
  cases r with
  | zero => omega
  | succ k =>
    show (match some s with
      | some t =>
        if accept t then (t, made + 1)
        else attemptLoop accept (fun _ => some s) fallback (made + 1) k
      | none => attemptLoop accept (fun _ => some s) fallback (made + 1) k) = _
    simp only
    cases ha : accept s with
    | true => simp
    | false =>
      simp only [Bool.false_eq_true, if_false]
      rw [attemptLoop_rejected accept (fun _ => some s) fallback k (made + 1)
        (fun i _ _ t ht => by cases ht; exact ha)]
      congr 1
      omega

/-- Claim C4: translate never raises (it is a total function here); an
empty input is returned unchanged with zero provider calls, and when
every one of the up-to-`retries` attempts fails (`none`) or is rejected
by the acceptance test, the original input is returned unchanged.  The
empty-input short-circuit belongs to `ArticleTranslator.translate`; the
retry-exhaustion fallback is proved for both translators. -/
theorem claim_C4_translate_total_fallback (provider : Nat → Option String)
    (text : String) (retries : Nat) :
    (text = "" →
      src.translator.ArticleTranslator.translate provider text retries = (text, 0)) ∧
    ((∀ i, 1 ≤ i → i ≤ retries →
        ∀ s, provider i = some s → src.translator.accepted s = false) →
      (src.translator.ArticleTranslator.translate provider text retries).1 = text) ∧
    ((∀ i, 1 ≤ i → i ≤ retries →
        ∀ s, provider i = some s → translator.accepted s = false) →
      (translator._mymemory_translate provider text retries).1 = text) := by
  refine ⟨?_, ?_, ?_⟩
  · intro h
    simp [src.translator.ArticleTranslator.translate, h]
  · intro h
    unfold src.translator.ArticleTranslator.translate
    by_cases he : text = ""
    · simp [he]
    · simp only [he, if_false]
      rw [attemptLoop_rejected _ provider text retries 0
        (fun i h1 h2 s hs => h i (by omega) (by omega) s hs)]
  · intro h
    unfold translator._mymemory_translate
    rw [attemptLoop_rejected _ provider text retries 0
      (fun i h1 h2 s hs => h i (by omega) (by omega) s hs)]

/-- Witness for claim C4: with a provider that always raises, the empty
string is translated to itself with zero calls and "hola" falls back to
itself; with a provider that always answers with the flat translator's
sentinel, "hola" also falls back to itself. -/
theorem claim_C4_witness :
    src.translator.ArticleTranslator.translate (fun _ => none) "" 3 = ("", 0) ∧
    (src.translator.ArticleTranslator.translate (fun _ => none) "hola" 3).1 = "hola" ∧
    (translator._mymemory_translate
      (fun _ => some "INVALID LANGUAGE PAIR SPECIFIED") "hola" 3).1 = "hola" :=
  ⟨(claim_C4_translate_total_fallback (fun _ => none) "" 3).1 rfl,
   (claim_C4_translate_total_fallback (fun _ => none) "hola" 3).2.1
     (fun _ _ _ s hs => by cases hs),
   (claim_C4_translate_total_fallback
       (fun _ => some "INVALID LANGUAGE PAIR SPECIFIED") "hola" 3).2.2
     (fun _ _ _ s hs => by cases hs; decide)⟩

/-- Acceptance rule exactly as claim C5 states it: non-empty and not
containing the sentinel text "invalid language pair" as a
case-insensitive substring. -/
def claimSentinelAccept (s : String) : Bool :=
  decide (s ≠ "") && !(containsSeq "invalid language pair".data (pyLower s.data))

/-- Counterexample to claim C5: the response "invalid language pair!"
contains the sentinel case-insensitively, so per the claim it must be
rejected, yet the flat translator accepts and returns it (its test is
equality with "INVALID LANGUAGE PAIR SPECIFIED"); conversely "INVALID
REQUEST" does not contain the sentinel, so per the claim it must be
accepted, yet the nested translator rejects it (its test is the
substring "INVALID" alone) and falls back to the original text. -/
theorem claim_C5_counterexample :
    claimSentinelAccept "invalid language pair!" = false ∧
    translator._mymemory_translate (fun _ => some "invalid language pair!") "orig" 3 =
      ("invalid language pair!", 1) ∧
    claimSentinelAccept "INVALID REQUEST" = true ∧
    (src.translator.ArticleTranslator.translate
      (fun _ => some "INVALID REQUEST") "orig" 3).1 = "orig" := by
  refine ⟨by decide, by decide, by decide, by decide⟩

/-- Claim C5 as amended: a provider response is accepted by the flat
translator iff it is non-empty and its upper-casing is not exactly
"INVALID LANGUAGE PAIR SPECIFIED", and by the nested translator iff it
is non-empty and does not contain "INVALID" case-insensitively;
acceptance means the response is returned, rejection means the attempt
is treated as failed (falling back to the original text when no attempt
is accepted). -/
theorem claim_C5_amended (s text : String) (retries : Nat)
    (hst : text ≠ s) (hr : 1 ≤ retries) (hne : text ≠ "") :
    ((translator._mymemory_translate (fun _ => some s) text retries).1 = s ↔
      (s ≠ "" ∧ String.mk (pyUpper s.data) ≠ "INVALID LANGUAGE PAIR SPECIFIED")) ∧
    ((src.translator.ArticleTranslator.translate (fun _ => some s) text retries).1 = s ↔
      (s ≠ "" ∧ containsSeq "INVALID".data (pyUpper s.data) = false)) := by
  have hflat : translator.accepted s = true ↔
      (s ≠ "" ∧ String.mk (pyUpper s.data) ≠ "INVALID LANGUAGE PAIR SPECIFIED") := by
    simp [translator.accepted]
  have hnested : src.translator.accepted s = true ↔
      (s ≠ "" ∧ containsSeq "INVALID".data (pyUpper s.data) = false) := by
    simp [src.translator.accepted]
  constructor
  · unfold translator._mymemory_translate
    rw [attemptLoop_const _ s text retries 0 hr]
    cases ha : translator.accepted s with
    | true => simpa [ha] using hflat.mp ha
    | false =>
      simp only [Bool.false_eq_true, if_false]
      rw [← hflat]
      simp [hst, ha]
  · unfold src.translator.ArticleTranslator.translate
    simp only [hne, if_false]
    rw [attemptLoop_const _ s text retries 0 hr]
    cases ha : src.translator.accepted s with
    | true => simpa [ha] using hnested.mp ha
    | false =>
      simp only [Bool.false_eq_true, if_false]
      rw [← hnested]
      simp [hst, ha]

/-- Witness for claim C5 amended at the accepted response "Hello". -/
theorem claim_C5_amended_witness :
    (("hola" : String) ≠ "Hello" ∧ (1 : Nat) ≤ 3 ∧ ("hola" : String) ≠ "") ∧
    ((translator._mymemory_translate (fun _ => some "Hello") "hola" 3).1 = "Hello" ↔
      (("Hello" : String) ≠ "" ∧
        String.mk (pyUpper "Hello".data) ≠ "INVALID LANGUAGE PAIR SPECIFIED")) :=
  ⟨⟨by decide, by decide, by decide⟩,
    (claim_C5_amended "Hello" "hola" 3 (by decide) (by decide) (by decide)).1⟩

end ElPais

namespace ElPais.browserstack_runner

/-- Python values stored in the shared results dict: strings, counts,
lists and nested dicts. -/
inductive Val where
  | str : String → Val
  | vint : Nat → Val
  | vlist : List Val → Val
  | vdict : List (String × Val) → Val

/-- The dict literal stored under `results[thread_idx]` by the `except`
branch of `run_pipeline_on_browserstack` (browserstack_runner.py lines
156-163).  Note the five keys: the caught exception text is printed but
does not appear anywhere in the stored entry. -/
def failedEntry (session_name : String) : List (String × Val) :=
  [("session", Val.str session_name),
   ("articles", Val.vlist []),
   ("translated_headers", Val.vlist []),
   ("repeated_words", Val.vdict []),
   ("status", Val.str "failed")]

/-- The dict literal stored by the success path (lines 142-149), with
the scraped articles and translated headers abstracted as inputs and
`repeated_words` computed by `find_repeated_words` at threshold 2. -/
def passedEntry (session_name : String) (articles : List Val)
    (translated_headers : List String) : List (String × Val) :=
  [("session", Val.str session_name),
   ("articles", Val.vlist articles),
   ("translated_headers", Val.vlist (translated_headers.map Val.str)),
   ("repeated_words", Val.vdict
     ((ElPais.analyzer.find_repeated_words translated_headers 2).map
       fun p => (p.1, Val.vint p.2))),
   ("status", Val.str "passed")]

/-- Embedding of `run_pipeline_on_browserstack`: the entry this thread
writes (exactly once, under the lock) into the shared results dict.
The try-block — remote-driver creation, scraping, translation — is
abstracted as an outcome: `Except.error e` when any exception with text
`e` is raised inside it, `Except.ok (articles, translated_headers)`
when it completes. -/
def run_pipeline_on_browserstack (session_name : String)
    (outcome : Except String (List Val × List String)) : List (String × Val) :=
  match outcome with
  | Except.ok (articles, headers) => passedEntry session_name articles headers
  | Except.error _ => failedEntry session_name

/-- The results dict built by `main`: one entry per capability, keyed by
the 1-based thread index (`enumerate(CAPABILITIES, start=1)`); each
thread writes exactly its own key. -/
def mainResultsAux (outcomes : Nat → Except String (List Val × List String)) :
    Nat → List String → List (Nat × List (String × Val))
  | _, [] => []
  | idx, name :: rest =>
    (idx, run_pipeline_on_browserstack name (outcomes idx)) ::
      mainResultsAux outcomes (idx + 1) rest

/-- Results collection of a whole run over the listed session names. -/
def mainResults (names : List String)
    (outcomes : Nat → Except String (List Val × List String)) :
    List (Nat × List (String × Val)) :=
  mainResultsAux outcomes 1 names

/-- Dict lookup (`d[k]` / `d.get(k)`), first matching key. -/
def lookupVal (d : List (String × Val)) (k : String) : Option Val :=
  match d.find? (fun p => p.1 == k) with
  | some p => some p.2
  | none => none

/-- The `"status"` field of a stored session entry. -/
def sessionStatus (entry : List (String × Val)) : Option Val :=
  lookupVal entry "status"

/-- Exit status of the whole run.  `main` (browserstack_runner.py lines
219-282) prints the consolidated report and returns `None`; it never
calls `sys.exit`, raises nothing on any results collection, and no
caller inspects the statuses, so the process exit status is 0 whatever
the per-session outcomes are. -/
def mainExitCode (_results : List (Nat × List (String × Val))) : Nat := 0

/-- The thread indices printed by the consolidated report and the
summary table: `sorted(results.keys())`. -/
def reportedIndices (results : List (Nat × List (String × Val))) : List Nat :=
  (results.map Prod.fst).mergeSort (fun a b => decide (a ≤ b))

theorem mainResultsAux_idx_lb (outcomes : Nat → Except String (List Val × List String)) :
    ∀ (names : List String) (idx : Nat) (p : Nat × List (String × Val)),
      p ∈ mainResultsAux outcomes idx names → idx ≤ p.1 := by
  intro names
  induction names with
  | nil => intro idx p hp; cases hp
  | cons nm rest ih =>
    intro idx p hp
    rcases List.mem_cons.mp hp with rfl | hp'
    · exact Nat.le_refl _
    · exact Nat.le_of_succ_le (ih (idx + 1) p hp')

theorem mainResultsAux_mem (outcomes : Nat → Except String (List Val × List String)) :
    ∀ (names : List String) (idx : Nat) (p : Nat × List (String × Val)),
      p ∈ mainResultsAux outcomes idx names →
      ∃ nm, p = (p.1, run_pipeline_on_browserstack nm (outcomes p.1)) := by
  intro names
  induction names with
  | nil => intro idx p hp; cases hp
  | cons nm rest ih =>
    intro idx p hp
    rcases List.mem_cons.mp hp with rfl | hp'
    · exact ⟨nm, rfl⟩
    · exact ih (idx + 1) p hp'

/-- Counterexample to claim C2: the entry recorded for a failed session
is literally independent of the raised error (the same five-key dict is
stored for any exception text), and it has no key besides session,
articles, translated_headers, repeated_words and status — so no
"captured error string describing the failure" is recorded in the
results collection. -/
theorem claim_C2_counterexample :
    run_pipeline_on_browserstack "Chrome Win11" (Except.error "boom") =
      run_pipeline_on_browserstack "Chrome Win11"
        (Except.error "a completely different failure") ∧
    (run_pipeline_on_browserstack "Chrome Win11" (Except.error "boom")).map Prod.fst =
      ["session", "articles", "translated_headers", "repeated_words", "status"] :=
  ⟨rfl, rfl⟩

/-- Claim C2 as amended: a session whose pipeline raises is recorded
with status "failed", empty articles and translated-header lists and an
empty repeated-words dict — but the captured error text is only
printed, not stored (there is no "error" key) — and the entries of all
other sessions are unaffected by that session's outcome. -/
theorem claim_C2_amended (names : List String)
    (outcomes outcomes' : Nat → Except String (List Val × List String))
    (i : Nat) (e : String) (hi : outcomes i = Except.error e) :
    (∀ p ∈ mainResults names outcomes, p.1 = i →
      sessionStatus p.2 = some (Val.str "failed") ∧
      lookupVal p.2 "articles" = some (Val.vlist []) ∧
      lookupVal p.2 "translated_headers" = some (Val.vlist []) ∧
      lookupVal p.2 "repeated_words" = some (Val.vdict []) ∧
      lookupVal p.2 "error" = none) ∧
    ((∀ j, j ≠ i → outcomes j = outcomes' j) →
      ∀ p ∈ mainResults names outcomes, ∀ q ∈ mainResults names outcomes',
        p.1 = q.1 → p.1 ≠ i → p = q) := by
  constructor
  · intro p hp hpi
    obtain ⟨nm, hnm⟩ := mainResultsAux_mem outcomes names 1 p hp
    have hfail : p.2 = failedEntry nm := by
      rw [hnm]
      simp only [hpi, hi]
      rfl
    rw [hfail]
    exact ⟨rfl, rfl, rfl, rfl, rfl⟩
  · intro hag
    have key : ∀ (rest : List String) (idx : Nat)
        (p q : Nat × List (String × Val)),
        p ∈ mainResultsAux outcomes idx rest →
        q ∈ mainResultsAux outcomes' idx rest → p.1 = q.1 → p.1 ≠ i → p = q := by
      intro rest
      induction rest with
      | nil => intro idx p q hp _ _ _; cases hp
      | cons nm tail ih =>
        intro idx p q hp hq hpq hpi
        rcases List.mem_cons.mp hp with rfl | hp'
        · rcases List.mem_cons.mp hq with rfl | hq'
          · rw [hag idx hpi]
          · have := mainResultsAux_idx_lb outcomes' tail (idx + 1) q hq'
            omega
        · rcases List.mem_cons.mp hq with rfl | hq'
          · have := mainResultsAux_idx_lb outcomes tail (idx + 1) p hp'
            omega
          · exact ih (idx + 1) p q hp' hq' hpq hpi
    exact fun p hp q hq => key names 1 p q hp hq

/-- Witness for claim C2 amended at a concrete failing session. -/
theorem claim_C2_amended_witness :
    sessionStatus (failedEntry "Chrome Win11") = some (Val.str "failed") ∧
    lookupVal (failedEntry "Chrome Win11") "error" = none := by
  have h := (claim_C2_amended ["Chrome Win11", "Firefox Win10"]
      (fun k => if k = 1 then Except.error "boom" else Except.ok ([], ["hola"]))
      (fun k => if k = 1 then Except.error "boom" else Except.ok ([], ["hola"]))
      1 "boom" rfl).1
      (1, failedEntry "Chrome Win11") (List.mem_cons_self _ _) rfl
  exact ⟨h.1, h.2.2.2.2⟩

/-- Claim C3: the run can exit non-zero only if all sessions failed
(vacuously so: `main` sets no exit status, so the exit code is 0 on
every path), and whenever at least one session passed the run exits
with status 0 after reporting every collected result in the summary. -/
theorem claim_C3_exit_status (results : List (Nat × List (String × Val))) :
    ((¬ ∀ p ∈ results, sessionStatus p.2 = some (Val.str "failed")) →
      mainExitCode results = 0) ∧
    ((∃ p ∈ results, sessionStatus p.2 = some (Val.str "passed")) →
      mainExitCode results = 0 ∧ ∀ p ∈ results, p.1 ∈ reportedIndices results) := by
  refine ⟨fun _ => rfl, fun _ => ⟨rfl, fun p hp => ?_⟩⟩
  rw [reportedIndices, List.mem_mergeSort]
  exact List.mem_map_of_mem Prod.fst hp

/-- Witness for claim C3 on a partially successful run: one passed and
one failed session, exit code 0, both sessions reported. -/
theorem claim_C3_witness :
    mainExitCode [(1, passedEntry "A" [] ["hola"]), (2, failedEntry "B")] = 0 ∧
    (1 : Nat) ∈ reportedIndices [(1, passedEntry "A" [] ["hola"]), (2, failedEntry "B")] ∧
    (2 : Nat) ∈ reportedIndices [(1, passedEntry "A" [] ["hola"]), (2, failedEntry "B")] := by
  have h := (claim_C3_exit_status [(1, passedEntry "A" [] ["hola"]), (2, failedEntry "B")]).2
    ⟨(1, passedEntry "A" [] ["hola"]), List.mem_cons_self _ _, rfl⟩
  refine ⟨h.1, h.2 (1, passedEntry "A" [] ["hola"]) (List.mem_cons_self _ _), ?_⟩
  exact h.2 (2, failedEntry "B") (List.mem_cons_of_mem _ (List.mem_cons_self _ _))

end ElPais.browserstack_runner

namespace ElPais

/-- One selector's element scan, shared by `_extract_article_urls`
(scraper.py lines 134-145, with early `return`) and
`_collect_article_urls` (src/scraper.py lines 97-106, with `break`):
each element's href (already defaulted to "" when the attribute is
missing) is tested with the qualifying predicate `q`, appended to
`hrefs` and added to `seen` when new, and the scan stops as soon as
`maxArticles` URLs have been collected.  Returns the final
`(seen, hrefs)` state and whether the early stop fired.  The Python
`seen` set is modelled as a list used only through membership. -/
def scanLoop (q : String → Bool) (maxArticles : Nat) :
    List String → List String → List String → (List String × List String) × Bool
  | seen, hrefs, [] => ((seen, hrefs), false)
  | seen, hrefs, href :: rest =>
    let st := if q href && !seen.contains href
      then (href :: seen, hrefs ++ [href]) else (seen, hrefs)
    if maxArticles ≤ st.2.length then (st, true)
    else scanLoop q maxArticles st.1 st.2 rest

/-- The outer loop over the card-level selectors: scan each selector's
elements in order, propagating the early stop. -/
def scanSelectors (q : String → Bool) (maxArticles : Nat) :
    List String → List String → List (List String) → (List String × List String) × Bool
  | seen, hrefs, [] => ((seen, hrefs), false)
  | seen, hrefs, elems :: more =>
    match scanLoop q maxArticles seen hrefs elems with
    | (st, true) => (st, true)
    | (st, false) => scanSelectors q maxArticles st.1 st.2 more

/-- Claim-side description of URL discovery: the qualifying hrefs in
first-discovery order, deduplicated by exact string (`seen` holds the
URLs already taken). -/
def newQualifying (q : String → Bool) (seen : List String) : List String → List String
  | [] => []
  | href :: rest =>
    if q href && !seen.contains href then href :: newQualifying q (href :: seen) rest
    else newQualifying q seen rest

end ElPais

namespace ElPais.scraper

/-- Match of the pattern `/\d{4}-\d{2}-\d{2}/` at the head of the
character list. -/
def dateSegAt : List Char → Bool
  | '/' :: a :: b :: c :: d :: '-' :: e :: f :: '-' :: g :: h :: '/' :: _ =>
    a.isDigit && b.isDigit && c.isDigit && d.isDigit && e.isDigit && f.isDigit &&
      g.isDigit && h.isDigit
  | _ => false

/-- Embedding of `re.search(r"/\d{4}-\d{2}-\d{2}/", href)`: the date
pattern matches at some position. -/
def containsDateSeg : List Char → Bool
  | [] => false
  | c :: rest => dateSegAt (c :: rest) || containsDateSeg rest

/-- Embedding of Python `href.rstrip("/")`. -/
def rstripSlash (l : List Char) : List Char :=
  (l.reverse.dropWhile (fun c => c = '/')).reverse

/-- Embedding of `_is_article_url` (scraper.py lines 98-113): non-empty,
contains "elpais.com" and "/opinion/", has a dated path segment, and
does not end (after stripping trailing slashes) with "/opinion". -/
def _is_article_url (href : String) : Bool :=
  decide (href ≠ "") && containsSeq "elpais.com".data href.data &&
    containsSeq "/opinion/".data href.data &&
    containsDateSeg href.data &&
    !(("/opinion".data).isSuffixOf (rstripSlash href.data))

def MAX_ARTICLES : Nat := 5

/-- Embedding of `_extract_article_urls` (scraper.py lines 116-160).
The page is abstracted as the href lists produced by the card-level
selectors plus the page-wide link list of the last-resort scan;
`maxArticles` generalizes the module constant `MAX_ARTICLES = 5`. -/
def _extract_article_urls (selectorHrefs : List (List String)) (allLinks : List String)
    (maxArticles : Nat := MAX_ARTICLES) : List String :=
  match scanSelectors _is_article_url maxArticles [] [] selectorHrefs with
  | ((_, hrefs), true) => hrefs
  | ((seen, hrefs), false) =>
    if maxArticles ≤ hrefs.length then hrefs
    else (scanLoop _is_article_url maxArticles seen hrefs allLinks).1.2

/-- Embedding of Python `s.strip()`: drop whitespace from both ends. -/
def pyStrip (s : String) : String :=
  String.mk (((s.data.dropWhile Char.isWhitespace).reverse.dropWhile
    Char.isWhitespace).reverse)

/-- Embedding of `" ".join(parts)`. -/
def joinSpace : List String → String
  | [] => ""
  | [x] => x
  | x :: y :: rest => x ++ " " ++ joinSpace (y :: rest)

/-- Embedding of the generator-join expression
`" ".join(p.text.strip() for p in paragraphs if p.text.strip())`;
paragraph elements are abstracted as their text contents. -/
def joinedText (paragraphs : List String) : String :=
  joinSpace ((paragraphs.map pyStrip).filter (fun t => !t.isEmpty))

/-- Embedding of the truncation expression
`text[:600] + ("…" if len(text) > 600 else "")` shared by both body
extractors. -/
def truncateBody (text : String) : String :=
  String.mk (text.data.take 600) ++ (if 600 < text.data.length then "…" else "")

/-- Embedding of `_extract_content` (scraper.py lines 178-194): for each
body selector in order, if it yields paragraphs and their joined
stripped text is non-empty, return that text truncated; otherwise fall
through, ending at the literal placeholder. -/
def _extract_content : List (List String) → String
  | [] => "(Content not available)"
  | paragraphs :: rest =>
    if !paragraphs.isEmpty && !(joinedText paragraphs).isEmpty then
      truncateBody (joinedText paragraphs)
    else _extract_content rest

/-- Body extraction exactly as claim C9 words it: the first selector
that yields ANY paragraphs provides the (truncated) concatenated text,
and only when no selector yields paragraphs is the placeholder
returned. -/
def claimBodyExtraction (selParagraphs : List (List String)) : String :=
  match selParagraphs.find? (fun ps => !ps.isEmpty) with
  | some ps => truncateBody (joinedText ps)
  | none => "(Content not available)"

end ElPais.scraper

namespace ElPais.src.scraper.ElPaisScraper

/-- Embedding of `ElPaisScraper._is_article_url` (src/scraper.py lines
121-129): non-empty, contains "elpais.com" and "/opinion/", and has a
dated path segment.  (No explicit bare-root exclusion: the date check
already rejects the section root.) -/
def _is_article_url (href : String) : Bool :=
  decide (href ≠ "") && ElPais.containsSeq "elpais.com".data href.data &&
    ElPais.containsSeq "/opinion/".data href.data &&
    ElPais.scraper.containsDateSeg href.data

/-- Embedding of `ElPaisScraper._collect_article_urls` (src/scraper.py
lines 92-119): scan the css selectors with early break, then fall back
to the page-wide link scan only when fewer than `numArticles` URLs were
collected. -/
def _collect_article_urls (cssHrefs : List (List String)) (allLinks : List String)
    (numArticles : Nat) : List String :=
  match ElPais.scanSelectors _is_article_url numArticles [] [] cssHrefs with
  | ((seen, urls), _) =>
    if urls.length < numArticles then
      (ElPais.scanLoop _is_article_url numArticles seen urls allLinks).1.2
    else urls

/-- Embedding of `ElPaisScraper._extract_content` (src/scraper.py lines
164-170): like the flat version but without the separate
paragraphs-non-empty test (the joined text of no paragraphs is empty
anyway). -/
def _extract_content : List (List String) → String
  | [] => "(Content not available)"
  | paras :: rest =>
    if !(ElPais.scraper.joinedText paras).isEmpty then
      ElPais.scraper.truncateBody (ElPais.scraper.joinedText paras)
    else _extract_content rest

end ElPais.src.scraper.ElPaisScraper


namespace ElPais

theorem newQualifying_mem (q : String → Bool) :
    ∀ (elems seen : List String) (u : String), u ∈ newQualifying q seen elems →
      q u = true ∧ seen.contains u = false := by
  intro elems
  induction elems with
  | nil => intro seen u hu; cases hu
  | cons href rest ih =>
    intro seen u hu
    by_cases hc : q href && !seen.contains href
    · obtain ⟨hq, hseen⟩ := Bool.and_eq_true .. |>.mp hc
      rw [newQualifying, if_pos hc] at hu
      rcases List.mem_cons.mp hu with rfl | hu'
      · exact ⟨hq, by simpa using hseen⟩
      · obtain ⟨hq', hseen'⟩ := ih (href :: seen) u hu'
        simp only [List.contains_cons, Bool.or_eq_false_iff] at hseen'
        exact ⟨hq', hseen'.2⟩
    · rw [newQualifying, if_neg hc] at hu
      exact ih seen u hu

theorem newQualifying_nodup (q : String → Bool) :
    ∀ (elems seen : List String), (newQualifying q seen elems).Nodup := by
  intro elems
  induction elems with
  | nil => intro seen; exact List.nodup_nil
  | cons href rest ih =>
    intro seen
    by_cases hc : q href && !seen.contains href
    · rw [newQualifying, if_pos hc]
      refine List.nodup_cons.mpr ⟨?_, ih (href :: seen)⟩
      intro hmem
      have := (newQualifying_mem q rest (href :: seen) href hmem).2
      simp at this
    · rw [newQualifying, if_neg hc]
      exact ih seen

theorem scanLoop_cons_true (q : String → Bool) (maxA : Nat)
    (seen hrefs : List String) (href : String) (rest : List String)
    (hc : (q href && !seen.contains href) = true) :
    scanLoop q maxA seen hrefs (href :: rest) =
      (if maxA ≤ (hrefs ++ [href]).length then ((href :: seen, hrefs ++ [href]), true)
       else scanLoop q maxA (href :: seen) (hrefs ++ [href]) rest) := by
  simp only [scanLoop, hc, if_true]

theorem scanLoop_cons_false (q : String → Bool) (maxA : Nat)
    (seen hrefs : List String) (href : String) (rest : List String)
    (hc : (q href && !seen.contains href) = false) :
    scanLoop q maxA seen hrefs (href :: rest) =
      (if maxA ≤ hrefs.length then ((seen, hrefs), true)
       else scanLoop q maxA seen hrefs rest) := by
  simp only [scanLoop, hc, Bool.false_eq_true, if_false]

theorem scanLoop_append (q : String → Bool) (maxA : Nat) :
    ∀ (xs ys seen hrefs : List String),
      scanLoop q maxA seen hrefs (xs ++ ys) =
        (match scanLoop q maxA seen hrefs xs with
          | (st, true) => (st, true)
          | (st, false) => scanLoop q maxA st.1 st.2 ys) := by
  intro xs
  induction xs with
  | nil => intro ys seen hrefs; rfl
  | cons x xs ih =>
    intro ys seen hrefs
    rw [List.cons_append]
    cases hc : q x && !seen.contains x with
    | true =>
      rw [scanLoop_cons_true _ _ _ _ _ _ hc, scanLoop_cons_true _ _ _ _ _ _ hc]
      by_cases hl : maxA ≤ (hrefs ++ [x]).length
      · rw [if_pos hl, if_pos hl]
      · rw [if_neg hl, if_neg hl, ih]
    | false =>
      rw [scanLoop_cons_false _ _ _ _ _ _ hc, scanLoop_cons_false _ _ _ _ _ _ hc]
      by_cases hl : maxA ≤ hrefs.length
      · rw [if_pos hl, if_pos hl]
      · rw [if_neg hl, if_neg hl, ih]

theorem scanSelectors_eq_flatten (q : String → Bool) (maxA : Nat) :
    ∀ (sels : List (List String)) (seen hrefs : List String),
      scanSelectors q maxA seen hrefs sels = scanLoop q maxA seen hrefs sels.flatten := by
  intro sels
  induction sels with
  | nil => intro seen hrefs; rfl
  | cons elems more ih =>
    intro seen hrefs
    rw [show (elems :: more).flatten = elems ++ more.flatten from rfl, scanLoop_append]
    show (match scanLoop q maxA seen hrefs elems with
      | (st, true) => (st, true)
      | (st, false) => scanSelectors q maxA st.1 st.2 more) = _
    cases hsc : scanLoop q maxA seen hrefs elems with
    | mk st flag =>
      cases flag with
      | true => rfl
      | false => exact ih st.1 st.2

theorem scanLoop_false_length (q : String → Bool) (maxA : Nat) :
    ∀ (elems seen hrefs : List String), hrefs.length < maxA →
      (scanLoop q maxA seen hrefs elems).2 = false →
      (scanLoop q maxA seen hrefs elems).1.2.length < maxA := by
  intro elems
  induction elems with
  | nil => intro seen hrefs h _; exact h
  | cons href rest ih =>
    intro seen hrefs h hflag
    cases hc : q href && !seen.contains href with
    | true =>
      rw [scanLoop_cons_true _ _ _ _ _ _ hc] at hflag ⊢
      by_cases hl : maxA ≤ (hrefs ++ [href]).length
      · rw [if_pos hl] at hflag
        cases hflag
      · rw [if_neg hl] at hflag ⊢
        refine ih _ _ ?_ hflag
        simp only [List.length_append, List.length_cons, List.length_nil] at hl ⊢
        omega
    | false =>
      rw [scanLoop_cons_false _ _ _ _ _ _ hc] at hflag ⊢
      have hl : ¬ maxA ≤ hrefs.length := by omega
      rw [if_neg hl] at hflag ⊢
      exact ih _ _ h hflag

theorem scanLoop_true_length (q : String → Bool) (maxA : Nat) :
    ∀ (elems seen hrefs : List String),
      (scanLoop q maxA seen hrefs elems).2 = true →
      maxA ≤ (scanLoop q maxA seen hrefs elems).1.2.length := by
  intro elems
  induction elems with
  | nil => intro seen hrefs h; cases h
  | cons href rest ih =>
    intro seen hrefs hflag
    cases hc : q href && !seen.contains href with
    | true =>
      rw [scanLoop_cons_true _ _ _ _ _ _ hc] at hflag ⊢
      by_cases hl : maxA ≤ (hrefs ++ [href]).length
      · rw [if_pos hl] at hflag ⊢
        exact hl
      · rw [if_neg hl] at hflag ⊢
        exact ih _ _ hflag
    | false =>
      rw [scanLoop_cons_false _ _ _ _ _ _ hc] at hflag ⊢
      by_cases hl : maxA ≤ hrefs.length
      · rw [if_pos hl] at hflag ⊢
        exact hl
      · rw [if_neg hl] at hflag ⊢
        exact ih _ _ hflag

theorem scanLoop_spec (q : String → Bool) (maxA : Nat) :
    ∀ (elems seen hrefs : List String), hrefs.length < maxA →
      (scanLoop q maxA seen hrefs elems).1.2 =
        hrefs ++ (newQualifying q seen elems).take (maxA - hrefs.length) := by
  intro elems
  induction elems with
  | nil =>
    intro seen hrefs _
    simp [scanLoop, newQualifying]
  | cons href rest ih =>
    intro seen hrefs h
    cases hc : q href && !seen.contains href with
    | true =>
      rw [scanLoop_cons_true _ _ _ _ _ _ hc, newQualifying, if_pos hc]
      by_cases hl : maxA ≤ (hrefs ++ [href]).length
      · rw [if_pos hl]
        have hmax : maxA - hrefs.length = 1 := by
          simp only [List.length_append, List.length_cons, List.length_nil] at hl
          omega
        rw [hmax]
        simp
      · rw [if_neg hl]
        have h' : (hrefs ++ [href]).length < maxA := by omega
        rw [ih (href :: seen) (hrefs ++ [href]) h']
        have hmax : maxA - hrefs.length = (maxA - (hrefs ++ [href]).length) + 1 := by
          simp only [List.length_append, List.length_cons, List.length_nil] at h' ⊢
          omega
        rw [hmax, List.take_succ_cons, List.append_assoc]
        rfl
    | false =>
      have hcn : ¬ (q href && !seen.contains href) = true := by
        intro hct
        rw [hct] at hc
        cases hc
      rw [scanLoop_cons_false _ _ _ _ _ _ hc]
      have hl : ¬ maxA ≤ hrefs.length := by omega
      rw [if_neg hl, newQualifying, if_neg hcn]
      exact ih seen hrefs h

theorem scanLoop_mem (q : String → Bool) (maxA : Nat) :
    ∀ (elems seen hrefs : List String) (u : String),
      u ∈ (scanLoop q maxA seen hrefs elems).1.2 → u ∈ hrefs ∨ q u = true := by
  intro elems
  induction elems with
  | nil => intro seen hrefs u hu; exact Or.inl hu
  | cons href rest ih =>
    intro seen hrefs u hu
    cases hc : q href && !seen.contains href with
    | true =>
      obtain ⟨hq, -⟩ := Bool.and_eq_true .. |>.mp hc
      rw [scanLoop_cons_true _ _ _ _ _ _ hc] at hu
      by_cases hl : maxA ≤ (hrefs ++ [href]).length
      · rw [if_pos hl] at hu
        have hu2 : u ∈ hrefs ++ [href] := hu
        rcases List.mem_append.mp hu2 with hu' | hu'
        · exact Or.inl hu'
        · rcases List.mem_singleton.mp hu' with rfl
          exact Or.inr hq
      · rw [if_neg hl] at hu
        rcases ih _ _ u hu with hu' | hu'
        · rcases List.mem_append.mp hu' with h1 | h1
          · exact Or.inl h1
          · rcases List.mem_singleton.mp h1 with rfl
            exact Or.inr hq
        · exact Or.inr hu'
    | false =>
      rw [scanLoop_cons_false _ _ _ _ _ _ hc] at hu
      by_cases hl : maxA ≤ hrefs.length
      · rw [if_pos hl] at hu
        exact Or.inl hu
      · rw [if_neg hl] at hu
        exact ih _ _ u hu

end ElPais

namespace ElPais.scraper

theorem extract_eq_scanLoop (sels : List (List String)) (links : List String)
    (maxA : Nat) (h1 : 1 ≤ maxA) :
    _extract_article_urls sels links maxA =
      (ElPais.scanLoop _is_article_url maxA [] [] (sels.flatten ++ links)).1.2 := by
  unfold _extract_article_urls
  rw [ElPais.scanSelectors_eq_flatten, ElPais.scanLoop_append]
  rcases hval : ElPais.scanLoop _is_article_url maxA [] [] sels.flatten with
    ⟨⟨seen1, hrefs1⟩, flag⟩
  cases flag with
  | true => rfl
  | false =>
    have hflag : (ElPais.scanLoop _is_article_url maxA [] [] sels.flatten).2 = false := by
      rw [hval]
    have hlen := ElPais.scanLoop_false_length _is_article_url maxA sels.flatten [] []
      (by simpa using h1) hflag
    rw [hval] at hlen
    have hlen' : hrefs1.length < maxA := hlen
    show (if maxA ≤ hrefs1.length then hrefs1
      else (ElPais.scanLoop _is_article_url maxA seen1 hrefs1 links).1.2) = _
    rw [if_neg (by omega)]

theorem extract_mem_qualifies (sels : List (List String)) (links : List String)
    (maxA : Nat) (u : String) (hu : u ∈ _extract_article_urls sels links maxA) :
    _is_article_url u = true := by
  have base : ∀ (w : String) (elems seen hrefs : List String),
      (∀ v ∈ hrefs, _is_article_url v = true) →
      w ∈ (ElPais.scanLoop _is_article_url maxA seen hrefs elems).1.2 →
      _is_article_url w = true := by
    intro w elems seen hrefs hpre hmem
    rcases ElPais.scanLoop_mem _is_article_url maxA elems seen hrefs w hmem with h0 | h0
    · exact hpre w h0
    · exact h0
  revert hu
  unfold _extract_article_urls
  rw [ElPais.scanSelectors_eq_flatten]
  rcases hval : ElPais.scanLoop _is_article_url maxA [] [] sels.flatten with
    ⟨⟨seen1, hrefs1⟩, flag⟩
  have h1 : ∀ v ∈ hrefs1, _is_article_url v = true := by
    intro v hv
    refine base v sels.flatten [] [] (by intro x hx; cases hx) ?_
    rw [hval]
    exact hv
  cases flag with
  | true => exact h1 u
  | false =>
    show u ∈ (if maxA ≤ hrefs1.length then hrefs1
      else (ElPais.scanLoop _is_article_url maxA seen1 hrefs1 links).1.2) → _
    by_cases hl : maxA ≤ hrefs1.length
    · rw [if_pos hl]
      exact h1 u
    · rw [if_neg hl]
      exact base u links seen1 hrefs1 h1

end ElPais.scraper

namespace ElPais.src.scraper.ElPaisScraper

theorem collect_eq_scanLoop (sels : List (List String)) (links : List String)
    (numA : Nat) (h1 : 1 ≤ numA) :
    _collect_article_urls sels links numA =
      (ElPais.scanLoop _is_article_url numA [] [] (sels.flatten ++ links)).1.2 := by
  unfold _collect_article_urls
  rw [ElPais.scanSelectors_eq_flatten, ElPais.scanLoop_append]
  rcases hval : ElPais.scanLoop _is_article_url numA [] [] sels.flatten with
    ⟨⟨seen1, urls1⟩, flag⟩
  cases flag with
  | true =>
    have hflag : (ElPais.scanLoop _is_article_url numA [] [] sels.flatten).2 = true := by
      rw [hval]
    have hlen := ElPais.scanLoop_true_length _is_article_url numA sels.flatten [] [] hflag
    rw [hval] at hlen
    have hlen' : numA ≤ urls1.length := hlen
    show (if urls1.length < numA then
      (ElPais.scanLoop _is_article_url numA seen1 urls1 links).1.2 else urls1) = _
    rw [if_neg (by omega)]
  | false =>
    have hflag : (ElPais.scanLoop _is_article_url numA [] [] sels.flatten).2 = false := by
      rw [hval]
    have hlen := ElPais.scanLoop_false_length _is_article_url numA sels.flatten [] []
      (by simpa using h1) hflag
    rw [hval] at hlen
    have hlen' : urls1.length < numA := hlen
    show (if urls1.length < numA then
      (ElPais.scanLoop _is_article_url numA seen1 urls1 links).1.2 else urls1) = _
    rw [if_pos hlen']

theorem collect_mem_qualifies (sels : List (List String)) (links : List String)
    (numA : Nat) (u : String) (hu : u ∈ _collect_article_urls sels links numA) :
    _is_article_url u = true := by
  have base : ∀ (w : String) (elems seen hrefs : List String),
      (∀ v ∈ hrefs, _is_article_url v = true) →
      w ∈ (ElPais.scanLoop _is_article_url numA seen hrefs elems).1.2 →
      _is_article_url w = true := by
    intro w elems seen hrefs hpre hmem
    rcases ElPais.scanLoop_mem _is_article_url numA elems seen hrefs w hmem with h0 | h0
    · exact hpre w h0
    · exact h0
  revert hu
  unfold _collect_article_urls
  rw [ElPais.scanSelectors_eq_flatten]
  rcases hval : ElPais.scanLoop _is_article_url numA [] [] sels.flatten with
    ⟨⟨seen1, urls1⟩, flag⟩
  have h1 : ∀ v ∈ urls1, _is_article_url v = true := by
    intro v hv
    refine base v sels.flatten [] [] (by intro x hx; cases hx) ?_
    rw [hval]
    exact hv
  show u ∈ (if urls1.length < numA then
    (ElPais.scanLoop _is_article_url numA seen1 urls1 links).1.2 else urls1) → _
  by_cases hl : urls1.length < numA
  · rw [if_pos hl]
    exact base u links seen1 urls1 h1
  · rw [if_neg hl]
    exact h1 u

end ElPais.src.scraper.ElPaisScraper

namespace ElPais

/-- Claim C6: every URL returned by article discovery — in either
implementation, for any scanned links — has a dated `/YYYY-MM-DD/` path
segment, contains the target domain "elpais.com" and the section path
"/opinion/", and is never the bare section-root URL (with or without
its trailing slash), even when the root appears among the scanned
links. -/
theorem claim_C6_only_dated_article_urls (sels : List (List String))
    (links : List String) (maxA : Nat) (u : String) :
    (u ∈ scraper._extract_article_urls sels links maxA →
      (scraper.containsDateSeg u.data = true ∧
        containsSeq "elpais.com".data u.data = true ∧
        containsSeq "/opinion/".data u.data = true ∧
        u ≠ "https://elpais.com/opinion/" ∧ u ≠ "https://elpais.com/opinion")) ∧
    (u ∈ src.scraper.ElPaisScraper._collect_article_urls sels links maxA →
      (scraper.containsDateSeg u.data = true ∧
        containsSeq "elpais.com".data u.data = true ∧
        containsSeq "/opinion/".data u.data = true ∧
        u ≠ "https://elpais.com/opinion/" ∧ u ≠ "https://elpais.com/opinion")) := by
  constructor
  · intro hu
    have hq := scraper.extract_mem_qualifies sels links maxA u hu
    have hq' := hq
    simp only [scraper._is_article_url, Bool.and_eq_true] at hq'
    obtain ⟨⟨⟨⟨-, hdom⟩, hsec⟩, hdate⟩, -⟩ := hq'
    refine ⟨hdate, hdom, hsec, ?_, ?_⟩
    · intro heq
      rw [heq] at hq
      exact absurd hq (by decide)
    · intro heq
      rw [heq] at hq
      exact absurd hq (by decide)
  · intro hu
    have hq := src.scraper.ElPaisScraper.collect_mem_qualifies sels links maxA u hu
    have hq' := hq
    simp only [src.scraper.ElPaisScraper._is_article_url, Bool.and_eq_true] at hq'
    obtain ⟨⟨⟨-, hdom⟩, hsec⟩, hdate⟩ := hq'
    refine ⟨hdate, hdom, hsec, ?_, ?_⟩
    · intro heq
      rw [heq] at hq
      exact absurd hq (by decide)
    · intro heq
      rw [heq] at hq
      exact absurd hq (by decide)

/-- Witness for claim C6: a page offering both the bare section root
and a dated article URL; the dated URL is returned and satisfies all
the guarantees. -/
theorem claim_C6_witness :
    ("https://elpais.com/opinion/2026-02-19/articulo.html" ∈
      scraper._extract_article_urls
        [["https://elpais.com/opinion/",
          "https://elpais.com/opinion/2026-02-19/articulo.html"]]
        ["https://elpais.com/opinion/"] 5) ∧
    scraper.containsDateSeg "https://elpais.com/opinion/2026-02-19/articulo.html".data = true ∧
    "https://elpais.com/opinion/2026-02-19/articulo.html" ≠ "https://elpais.com/opinion/" := by
  have hmem : "https://elpais.com/opinion/2026-02-19/articulo.html" ∈
      scraper._extract_article_urls
        [["https://elpais.com/opinion/",
          "https://elpais.com/opinion/2026-02-19/articulo.html"]]
        ["https://elpais.com/opinion/"] 5 := by decide
  have h := (claim_C6_only_dated_article_urls
    [["https://elpais.com/opinion/",
      "https://elpais.com/opinion/2026-02-19/articulo.html"]]
    ["https://elpais.com/opinion/"] 5
    "https://elpais.com/opinion/2026-02-19/articulo.html").1 hmem
  exact ⟨hmem, h.1, h.2.2.2.1⟩

/-- Claim C7: for a positive requested count, article discovery (both
implementations) returns exactly the qualifying URLs in first-discovery
order, deduplicated by exact string, cut off at the requested count —
hence a list without duplicates of length at most the count, and a
shorter list (without error) when fewer qualifying links exist. -/
theorem claim_C7_dedup_order_cap (sels : List (List String))
    (links : List String) (maxA : Nat) (h1 : 1 ≤ maxA) :
    (scraper._extract_article_urls sels links maxA =
        (newQualifying scraper._is_article_url [] (sels.flatten ++ links)).take maxA ∧
      (scraper._extract_article_urls sels links maxA).Nodup ∧
      (scraper._extract_article_urls sels links maxA).length ≤ maxA) ∧
    (src.scraper.ElPaisScraper._collect_article_urls sels links maxA =
        (newQualifying src.scraper.ElPaisScraper._is_article_url []
          (sels.flatten ++ links)).take maxA ∧
      (src.scraper.ElPaisScraper._collect_article_urls sels links maxA).Nodup ∧
      (src.scraper.ElPaisScraper._collect_article_urls sels links maxA).length ≤ maxA) := by
  have e1 : scraper._extract_article_urls sels links maxA =
      (newQualifying scraper._is_article_url [] (sels.flatten ++ links)).take maxA := by
    rw [scraper.extract_eq_scanLoop sels links maxA h1,
      scanLoop_spec _ maxA (sels.flatten ++ links) [] [] (by simpa using h1),
      List.nil_append, List.length_nil, Nat.sub_zero]
  have e2 : src.scraper.ElPaisScraper._collect_article_urls sels links maxA =
      (newQualifying src.scraper.ElPaisScraper._is_article_url []
        (sels.flatten ++ links)).take maxA := by
    rw [src.scraper.ElPaisScraper.collect_eq_scanLoop sels links maxA h1,
      scanLoop_spec _ maxA (sels.flatten ++ links) [] [] (by simpa using h1),
      List.nil_append, List.length_nil, Nat.sub_zero]
  refine ⟨⟨e1, ?_, ?_⟩, ⟨e2, ?_, ?_⟩⟩
  · rw [e1]
    exact List.Nodup.sublist (List.take_sublist _ _)
      (newQualifying_nodup scraper._is_article_url _ [])
  · rw [e1]
    exact List.length_take_le _ _
  · rw [e2]
    exact List.Nodup.sublist (List.take_sublist _ _)
      (newQualifying_nodup src.scraper.ElPaisScraper._is_article_url _ [])
  · rw [e2]
    exact List.length_take_le _ _

/-- Witness for claim C7: a concrete page with a duplicate dated link
and the bare root; discovery returns the deduplicated dated URLs, is
duplicate-free and within the cap. -/
theorem claim_C7_witness :
    (1 : Nat) ≤ 2 ∧
    scraper._extract_article_urls
      [["https://elpais.com/opinion/2026-02-19/a.html",
        "https://elpais.com/opinion/2026-02-19/a.html",
        "https://elpais.com/opinion/"]]
      ["https://elpais.com/opinion/2026-02-20/b.html"] 2 =
      (newQualifying scraper._is_article_url []
        ([["https://elpais.com/opinion/2026-02-19/a.html",
           "https://elpais.com/opinion/2026-02-19/a.html",
           "https://elpais.com/opinion/"]].flatten ++
          ["https://elpais.com/opinion/2026-02-20/b.html"])).take 2 ∧
    (scraper._extract_article_urls
      [["https://elpais.com/opinion/2026-02-19/a.html",
        "https://elpais.com/opinion/2026-02-19/a.html",
        "https://elpais.com/opinion/"]]
      ["https://elpais.com/opinion/2026-02-20/b.html"] 2).Nodup := by
  have h := (claim_C7_dedup_order_cap
    [["https://elpais.com/opinion/2026-02-19/a.html",
      "https://elpais.com/opinion/2026-02-19/a.html",
      "https://elpais.com/opinion/"]]
    ["https://elpais.com/opinion/2026-02-20/b.html"] 2 (by decide)).1
  exact ⟨by decide, h.1, h.2.1⟩

end ElPais

namespace ElPais

/-- Counterexample to claim C9: on a page whose FIRST body selector
yields one whitespace-only paragraph and whose second yields "hello",
both extractors skip the first selector (its concatenated stripped text
is empty) and return "hello", whereas the claim — "the concatenated
paragraph text of the first body selector that yields any paragraphs" —
prescribes the empty concatenation of the first selector. -/
theorem claim_C9_counterexample :
    scraper._extract_content [[" "], ["hello"]] = "hello" ∧
    src.scraper.ElPaisScraper._extract_content [[" "], ["hello"]] = "hello" ∧
    scraper.claimBodyExtraction [[" "], ["hello"]] = "" ∧
    ("hello" : String) ≠ "" :=
  ⟨by decide, by decide, by decide, by decide⟩

/-- Claim C9 as amended: body extraction returns the truncated
concatenated stripped paragraph text of the first body selector whose
concatenation is NON-EMPTY (selectors yielding no paragraphs, or only
whitespace paragraphs, are skipped); the truncation marker "…" is
appended exactly when the text exceeds the 600-character cap; when no
selector yields non-empty text the literal placeholder
"(Content not available)" is returned — never an absent value.  Proved
for both extractors. -/
theorem claim_C9_first_nonempty_body (sels : List (List String)) :
    (scraper._extract_content sels =
      (match sels.find? (fun ps => !(scraper.joinedText ps).isEmpty) with
        | some ps => scraper.truncateBody (scraper.joinedText ps)
        | none => "(Content not available)") ∧
     src.scraper.ElPaisScraper._extract_content sels =
      (match sels.find? (fun ps => !(scraper.joinedText ps).isEmpty) with
        | some ps => scraper.truncateBody (scraper.joinedText ps)
        | none => "(Content not available)")) ∧
    (∀ t : String,
      (t.data.length ≤ 600 → scraper.truncateBody t = t) ∧
      (600 < t.data.length →
        scraper.truncateBody t = String.mk (t.data.take 600) ++ "…")) := by
  constructor
  · induction sels with
    | nil => exact ⟨rfl, rfl⟩
    | cons ps rest ih =>
      rw [List.find?_cons]
      by_cases hj : (scraper.joinedText ps).isEmpty = true
      · have hcond : (!(scraper.joinedText ps).isEmpty) = false := by simp [hj]
        rw [hcond]
        constructor
        · rw [scraper._extract_content]
          rw [show (!ps.isEmpty && !(scraper.joinedText ps).isEmpty) = false by
            rw [hcond, Bool.and_false]]
          simp only [Bool.false_eq_true, if_false]
          exact ih.1
        · rw [src.scraper.ElPaisScraper._extract_content, hcond]
          simp only [Bool.false_eq_true, if_false]
          exact ih.2
      · have hj' : (scraper.joinedText ps).isEmpty = false := Bool.of_not_eq_true hj
        have hcond : (!(scraper.joinedText ps).isEmpty) = true := by rw [hj']; rfl
        have hne : ps.isEmpty = false := by
          cases hps0 : ps.isEmpty
          · rfl
          · exfalso
            have : ps = [] := List.isEmpty_iff.mp hps0
            rw [this] at hj
            exact hj rfl
        rw [hcond]
        constructor
        · rw [scraper._extract_content]
          rw [show (!ps.isEmpty && !(scraper.joinedText ps).isEmpty) = true by
            rw [hcond, hne]; rfl]
          simp only [if_true]
        · rw [src.scraper.ElPaisScraper._extract_content, hcond]
          simp only [if_true]
  · intro t
    constructor
    · intro hle
      show String.mk (t.data.take 600) ++ (if 600 < t.data.length then "…" else "") = t
      rw [if_neg (by omega), List.take_of_length_le hle, String.append_empty]
    · intro hlt
      show String.mk (t.data.take 600) ++ (if 600 < t.data.length then "…" else "") = _
      rw [if_pos hlt]

/-- Witness for claim C9 amended: the whitespace-first page resolves to
the second selector, and a short text is returned untruncated. -/
theorem claim_C9_witness :
    scraper._extract_content [[" "], ["hello"]] =
      (match [[" "], ["hello"]].find? (fun ps => !(scraper.joinedText ps).isEmpty) with
        | some ps => scraper.truncateBody (scraper.joinedText ps)
        | none => "(Content not available)") ∧
    (("hello" : String).data.length ≤ 600 ∧ scraper.truncateBody "hello" = "hello") :=
  ⟨(claim_C9_first_nonempty_body [[" "], ["hello"]]).1.1,
   by decide, (claim_C9_first_nonempty_body [[" "], ["hello"]]).2 "hello" |>.1 (by decide)⟩

end ElPais
